import Mathlib

/-!
# Verification of the Postgresql-Load-Test load engine

A shallow embedding of `src/Modules/testload.py`: the field normalizer
(`parse_first_brewed`, volume extraction), the row encoder
(`clean_csv_value`, the `'|'.join(...) + '\n'` lines), the nine batching
strategies, and the pull-based stream adapter (`StringIteratorIO`, here
`StringIterState`).

Python strings are modelled as `List Char`, Python exceptions as the
inductive `PyErr` (the spec's `FormatError` is the `AssertionError` raised
by `parse_first_brewed`; the spec's `SchemaError` is the `KeyError` raised
by a missing dict key).  Fallible Python code returns `Except PyErr`.
-/

set_option autoImplicit false

deriving instance DecidableEq for Except

/-- Python exceptions that the modelled code can raise.
`keyError k` models `KeyError` on dict subscription with key `k`;
`valueError` models `ValueError` (from `int(...)` on a bad literal or from
`datetime.date(...)` on an out-of-range component); `typeError` models
`TypeError`/`AttributeError` on a value of the wrong shape; `assertionError
msg` models a failing `assert _, msg`; `storeErr` models an error raised by
the destination store (the spec's `StoreError`). -/
inductive PyErr where
  | keyError (k : String)
  | valueError
  | typeError
  | assertionError (msg : String)
  | storeErr
  deriving DecidableEq, Repr

/-- A scalar value inside a nested mapping of a `RawRecord` (the
`{value: int, unit: string}` structure of the `volume` field). -/
inductive PyScalar where
  | snone
  | sint (i : Int)
  | sstr (s : List Char)
  deriving DecidableEq, Repr

/-- A `datetime.date`: the smart constructor `pyDate` below enforces
`datetime`'s validity constraints. -/
structure PyDate where
  year : Nat
  month : Nat
  day : Nat
  deriving DecidableEq, Repr

/-- A Python value as it occurs in a `RawRecord` field or in a normalized
row: `None`, an int, a string, a `datetime.date`, or a (one-level) nested
mapping such as the `volume` field.  One nesting level is all the records
of this pipeline use. -/
inductive PyVal where
  | pnone
  | pint (i : Int)
  | pstr (s : List Char)
  | pdate (d : PyDate)
  | pdict (entries : List (String × PyScalar))
  deriving DecidableEq, Repr

/-- A `RawRecord`: the semantic key/value map yielded by the record
source. -/
def RawRecord : Type := List (String × PyVal)

/-- Dict subscription `d[k]`: first entry with key `k`, else `KeyError k`.
(Python dicts have unique keys, so first-match is the dict lookup.) -/
def dictGet {α : Type} : List (String × α) → String → Except PyErr α
  | [], k => .error (.keyError k)
  | (k', v) :: rest, k => if k = k' then .ok v else dictGet rest k

/-- Dict update `d[k] = v` as used by `{**beer, 'k': v}`: replace the first
binding of `k`, else append. -/
def dictSet {α : Type} : List (String × α) → String → α → List (String × α)
  | [], k, v => [(k, v)]
  | (k', v') :: rest, k, v =>
      if k = k' then (k', v) :: rest else (k', v') :: dictSet rest k v

/-- Gregorian leap year, as `datetime` uses. -/
def isLeap (y : Nat) : Bool := y % 4 = 0 && (y % 100 ≠ 0 || y % 400 = 0)

/-- Days in a month, as `datetime` uses. -/
def daysInMonth (y m : Nat) : Nat :=
  if m = 2 then (if isLeap y then 29 else 28)
  else if m = 4 || m = 6 || m = 9 || m = 11 then 30
  else 31

/-- Model of `datetime.date(y, m, d)`: validates `MINYEAR ≤ y ≤ MAXYEAR`,
`1 ≤ m ≤ 12`, `1 ≤ d ≤ daysInMonth`, raising `ValueError` otherwise. -/
def pyDate (y m d : Int) : Except PyErr PyDate :=
  if 1 ≤ y ∧ y ≤ 9999 ∧ 1 ≤ m ∧ m ≤ 12 ∧ 1 ≤ d ∧ d ≤ (daysInMonth y.toNat m.toNat : Int)
  then .ok ⟨y.toNat, m.toNat, d.toNat⟩
  else .error .valueError

/-- Python `text.split(sep)` for a one-character separator: splits on every
occurrence, keeping empty pieces; the result is never empty. -/
def pySplit (sep : Char) : List Char → List (List Char)
  | [] => [[]]
  | c :: rest =>
      let r := pySplit sep rest
      if c = sep then [] :: r
      else
        match r with
        | [] => [[c]]
        | g :: gs => (c :: g) :: gs

/-- The numeric value of an ASCII digit, `none` for any other character. -/
def digitVal (c : Char) : Option Nat :=
  if '0' ≤ c ∧ c ≤ '9' then some (c.toNat - '0'.toNat) else none

/-- Accumulating decimal parse of a digit run; `none` on a non-digit. -/
def decAux (acc : Nat) : List Char → Option Nat
  | [] => some acc
  | c :: cs =>
      match digitVal c with
      | some d => decAux (acc * 10 + d) cs
      | none => none

/-- A nonempty all-digit run parsed as a `Nat`, else `none`. -/
def pyIntAbs (cs : List Char) : Option Nat :=
  if cs = [] then none else decAux 0 cs

/-- Python `int(s)` restricted to the literal shapes this program meets: an
optional sign followed by ASCII digits (whitespace, underscores and
non-ASCII digits are outside the modelled domain); anything else raises
`ValueError`. -/
def pyInt (cs : List Char) : Except PyErr Int :=
  match cs with
  | [] => .error .valueError
  | c :: rest =>
      if c = '-' then
        match pyIntAbs rest with
        | some n => .ok (-(n : Int))
        | none => .error .valueError
      else if c = '+' then
        match pyIntAbs rest with
        | some n => .ok (n : Int)
        | none => .error .valueError
      else
        match pyIntAbs (c :: rest) with
        | some n => .ok (n : Int)
        | none => .error .valueError

/-- Model of `parse_first_brewed` (testload.py:95-102): split on `'/'`; two parts
`MM/YYYY` give `date(int(YYYY), int(MM), 1)` (the year literal is converted
first, matching Python's argument evaluation order), one part `YYYY` gives
`date(int(YYYY), 1, 1)`, any other part count hits
`assert False, 'Unknown date format'`. -/
def parse_first_brewed (text : List Char) : Except PyErr PyDate :=
  match pySplit '/' text with
  | [p0, p1] => do
      let y ← pyInt p1
      let m ← pyInt p0
      pyDate y m 1
  | [p0] => do
      let y ← pyInt p0
      pyDate y 1 1
  | _ => .error (.assertionError "Unknown date format")

/-- Decimal rendering of a `Nat`, zero-padded to two places
(`'%02d'`, as `date.isoformat` renders months and days). -/
def pad2 (n : Nat) : List Char :=
  if n < 10 then '0' :: (Nat.repr n).data else (Nat.repr n).data

/-- Decimal rendering of a `Nat`, zero-padded to four places
(`'%04d'`, as `date.isoformat` renders years). -/
def pad4 (n : Nat) : List Char :=
  if n < 10 then '0' :: '0' :: '0' :: (Nat.repr n).data
  else if n < 100 then '0' :: '0' :: (Nat.repr n).data
  else if n < 1000 then '0' :: (Nat.repr n).data
  else (Nat.repr n).data

/-- Model of `date.isoformat()` (also `str(date)`): `YYYY-MM-DD`. -/
def isoDate (d : PyDate) : List Char :=
  pad4 d.year ++ '-' :: pad2 d.month ++ '-' :: pad2 d.day

/-- Python `repr` of a scalar, as it appears inside `str(dict)`. -/
def scalarRepr : PyScalar → List Char
  | .snone => "None".data
  | .sint i => (toString i).data
  | .sstr s => '\x27' :: s ++ ['\x27']

/-- The body of Python's `str` of a dict: comma-separated
`'key': repr(value)` entries in insertion order. -/
def dictBody : List (String × PyScalar) → List Char
  | [] => []
  | [(k, v)] => '\x27' :: k.data ++ '\x27' :: ':' :: ' ' :: scalarRepr v
  | (k, v) :: rest =>
      '\x27' :: k.data ++ '\x27' :: ':' :: ' ' :: scalarRepr v
        ++ ',' :: ' ' :: dictBody rest

/-- Python `str(value)` for the modelled values. -/
def pyStr : PyVal → List Char
  | .pnone => "None".data
  | .pint i => (toString i).data
  | .pstr s => s
  | .pdate d => isoDate d
  | .pdict entries => '\x7b' :: dictBody entries ++ ['\x7d']

/-- Model of `str.replace('\n', '\\n')`: every newline becomes the two-character
literal backslash-n. -/
def replaceNl : List Char → List Char
  | [] => []
  | c :: rest =>
      if c = '\n' then '\\' :: 'n' :: replaceNl rest else c :: replaceNl rest

/-- Model of `clean_csv_value` (testload.py:340-343): `None` renders as the null
sentinel `\N`; any other value is `str`-rendered with newlines escaped. -/
def clean_csv_value (v : PyVal) : List Char :=
  match v with
  | .pnone => ['\\', 'N']
  | x => replaceNl (pyStr x)

/-- Python `sep.join(parts)` for a one-character separator. -/
def joinSep (sep : Char) : List (List Char) → List Char
  | [] => []
  | [x] => x
  | x :: xs => x ++ sep :: joinSep sep xs

/-- One encoded row of the text-copy strategies:
`'|'.join(map(clean_csv_value, fields)) + '\n'`. -/
def encodeRow (fields : List PyVal) : List Char :=
  joinSep '|' (fields.map clean_csv_value) ++ ['\n']

/-! ## The store

The destination store is an external collaborator (spec section 6); it is
modelled as the staging table's state: `none` while the table does not
exist, `some rows` otherwise.  A stored row records exactly what a
strategy handed over: the parameter tuple of an insert, or the decoded
fields of one line of copy text. -/

/-- One row as received by the store. -/
inductive StoredRow where
  | params (vals : List PyVal)
  | textRow (fields : List (Option (List Char)))
  deriving DecidableEq, Repr

/-- The staging table's state: `none` = table absent. -/
abbrev Store : Type := Option (List StoredRow)

/-- Model of `create_staging_table` (testload.py:70-92): `DROP TABLE IF EXISTS`
followed by `CREATE TABLE` — the table becomes empty whatever its prior
state. -/
def create_staging_table (_ : Store) : Store := some []

/-- Append rows handed to the store to the staging table; a store error if
the table does not exist. -/
def insertRows (s : Store) (rs : List StoredRow) : Except PyErr Store :=
  match s with
  | none => .error .storeErr
  | some t => .ok (some (t ++ rs))

/-- Fail-fast effectful map, mirroring how a Python loop, list
comprehension or generator is consumed: the first exception aborts. -/
def mapME {α β : Type} (f : α → Except PyErr β) : List α → Except PyErr (List β)
  | [] => .ok []
  | a :: as => do
      let b ← f a
      let bs ← mapME f as
      pure (b :: bs)

/-- Fail-fast effectful fold, mirroring a Python loop that threads state
through the store cursor. -/
def foldlME {σ α : Type} (f : σ → α → Except PyErr σ) : σ → List α → Except PyErr σ
  | s, [] => .ok s
  | s, a :: as => do
      let s' ← f s a
      foldlME f s' as

/-! ## Normalization -/

/-- The 17 staging columns, in table order (testload.py:70-92); all the
parameterized inserts name their `%(...)s` parameters in this order. -/
def staging_columns : List String :=
  ["id", "name", "tagline", "first_brewed", "description", "image_url",
   "abv", "ibu", "target_fg", "target_og", "ebc", "srm", "ph",
   "attenuation_level", "brewers_tips", "contributed_by", "volume"]

/-- The field `beer['first_brewed']` fed to `parse_first_brewed`: the field must be
a string (anything else would fail on `.split`). -/
def firstBrewedDate (beer : RawRecord) : Except PyErr PyDate := do
  let fb ← dictGet beer "first_brewed"
  match fb with
  | .pstr s => parse_first_brewed s
  | _ => .error .typeError

/-- The lookup `beer['volume']['value']`: `KeyError 'volume'` when the key is absent,
`TypeError` when the field is not a mapping, `KeyError 'value'` when the
mapping lacks `value`. -/
def volumeValue (beer : RawRecord) : Except PyErr PyVal := do
  let v ← dictGet beer "volume"
  match v with
  | .pdict d => do
      let sv ← dictGet d "value"
      pure (match sv with
            | .snone => .pnone
            | .sint i => .pint i
            | .sstr s => .pstr s)
  | _ => .error .typeError

/-- The normalized parameter dict
`{**beer, 'first_brewed': parse_first_brewed(beer['first_brewed']),
'volume': beer['volume']['value']}` built by the dict-based strategies
(the date is computed before the volume, as in the dict display). -/
def normalizeBeer (beer : RawRecord) : Except PyErr RawRecord := do
  let dt ← firstBrewedDate beer
  let vol ← volumeValue beer
  pure (dictSet (dictSet beer "first_brewed" (.pdate dt)) "volume" vol)

/-- Model of `psycopg2`'s `%(name)s` substitution: the parameter dict is read at the
17 column names in statement order, producing the positional row the store
receives. -/
def extractNamed (d : RawRecord) : Except PyErr (List PyVal) :=
  mapME (dictGet d) staging_columns

/-- The per-record pipeline of the dict-based strategies: normalize, then
extract the named parameters. -/
def rowViaDict (beer : RawRecord) : Except PyErr (List PyVal) := do
  let d ← normalizeBeer beer
  extractNamed d

/-- The explicit 17-tuple built by `insert_execute_values` /
`insert_execute_values_iterator` (testload.py:286-304), with the source's
field and evaluation order. -/
def beerTuple (beer : RawRecord) : Except PyErr (List PyVal) := do
  let vid ← dictGet beer "id"
  let vname ← dictGet beer "name"
  let vtag ← dictGet beer "tagline"
  let dt ← firstBrewedDate beer
  let vdesc ← dictGet beer "description"
  let vurl ← dictGet beer "image_url"
  let vabv ← dictGet beer "abv"
  let vibu ← dictGet beer "ibu"
  let vfg ← dictGet beer "target_fg"
  let vog ← dictGet beer "target_og"
  let vebc ← dictGet beer "ebc"
  let vsrm ← dictGet beer "srm"
  let vph ← dictGet beer "ph"
  let vatt ← dictGet beer "attenuation_level"
  let vtips ← dictGet beer "brewers_tips"
  let vcon ← dictGet beer "contributed_by"
  let vvol ← volumeValue beer
  pure [vid, vname, vtag, .pdate dt, vdesc, vurl, vabv, vibu, vfg, vog,
        vebc, vsrm, vph, vatt, vtips, vcon, vvol]

/-- The 17 fields of one `copy_stringio` line (testload.py:352-370), in the
source's order — note it writes `contributed_by` before `brewers_tips`,
unlike the table and every other strategy. -/
def stringioFields (beer : RawRecord) : Except PyErr (List PyVal) := do
  let vid ← dictGet beer "id"
  let vname ← dictGet beer "name"
  let vtag ← dictGet beer "tagline"
  let dt ← firstBrewedDate beer
  let vdesc ← dictGet beer "description"
  let vurl ← dictGet beer "image_url"
  let vabv ← dictGet beer "abv"
  let vibu ← dictGet beer "ibu"
  let vfg ← dictGet beer "target_fg"
  let vog ← dictGet beer "target_og"
  let vebc ← dictGet beer "ebc"
  let vsrm ← dictGet beer "srm"
  let vph ← dictGet beer "ph"
  let vatt ← dictGet beer "attenuation_level"
  let vcon ← dictGet beer "contributed_by"
  let vtips ← dictGet beer "brewers_tips"
  let vvol ← volumeValue beer
  pure [vid, vname, vtag, .pdate dt, vdesc, vurl, vabv, vibu, vfg, vog,
        vebc, vsrm, vph, vatt, vcon, vtips, vvol]

/-- The 17 fields of one `copy_string_iterator` line (testload.py:418-436),
in the source's order (`brewers_tips` before `contributed_by`, matching the
table); `first_brewed` is passed through `.isoformat()`, so the field is a
string. -/
def iteratorFields (beer : RawRecord) : Except PyErr (List PyVal) := do
  let vid ← dictGet beer "id"
  let vname ← dictGet beer "name"
  let vtag ← dictGet beer "tagline"
  let dt ← firstBrewedDate beer
  let vdesc ← dictGet beer "description"
  let vurl ← dictGet beer "image_url"
  let vabv ← dictGet beer "abv"
  let vibu ← dictGet beer "ibu"
  let vfg ← dictGet beer "target_fg"
  let vog ← dictGet beer "target_og"
  let vebc ← dictGet beer "ebc"
  let vsrm ← dictGet beer "srm"
  let vph ← dictGet beer "ph"
  let vatt ← dictGet beer "attenuation_level"
  let vtips ← dictGet beer "brewers_tips"
  let vcon ← dictGet beer "contributed_by"
  let vvol ← volumeValue beer
  pure [vid, vname, vtag, .pstr (isoDate dt), vdesc, vurl, vabv, vibu, vfg,
        vog, vebc, vsrm, vph, vatt, vtips, vcon, vvol]

/-- One encoded `copy_stringio` line. -/
def stringioLine (beer : RawRecord) : Except PyErr (List Char) := do
  let fs ← stringioFields beer
  pure (encodeRow fs)

/-- One encoded `copy_string_iterator` line. -/
def iteratorLine (beer : RawRecord) : Except PyErr (List Char) := do
  let fs ← iteratorFields beer
  pure (encodeRow fs)

/-! ## The pull-based stream adapter (`StringIteratorIO`, testload.py:375-409)

The adapter's state is the remaining iterator (for finite inputs, the list
of strings not yet pulled) and the unconsumed tail `_buff` of the last
pulled string.  The sized and unsized read loops are implemented with an
explicit iteration budget (structural recursion so that closed instances
evaluate); the budgets are proved sufficient below, so the functions equal
the Python loops on every input. -/

/-- State of a `StringIteratorIO` object: `iter` is what remains of the
underlying string iterator, `buff` is `self._buff`. -/
structure StringIterState where
  iter : List (List Char)
  buff : List Char
  deriving DecidableEq, Repr

/-- The `while not self._buff:` pull loop of `_read1`: skip empty strings
until a nonempty one arrives (returned with the remaining iterator) or the
iterator is exhausted. -/
def pullLoop : List (List Char) → List Char × List (List Char)
  | [] => ([], [])
  | s :: rest => if s = [] then pullLoop rest else (s, rest)

/-- Model of `_read1(n)` (testload.py:384-392): refill the buffer if it is empty,
return `self._buff[:n]` (all of it when `n` is `none`), keep the rest. -/
def read1 (st : StringIterState) (n : Option Nat) : List Char × StringIterState :=
  let p := if st.buff = [] then pullLoop st.iter else (st.buff, st.iter)
  let ret := match n with
             | none => p.1
             | some k => p.1.take k
  (ret, ⟨p.2, p.1.drop ret.length⟩)

/-- The sized loop of `read` (`while n > 0: m = self._read1(n); ...`),
with an iteration budget: each pass returns at least one character or
breaks, so a budget of `n` always suffices (`readSizedFuel_spec`). -/
def readSizedFuel : Nat → StringIterState → Nat → List Char × StringIterState
  | 0, st, _ => ([], st)
  | f + 1, st, n =>
      if n = 0 then ([], st)
      else
        let p := read1 st (some n)
        if p.1 = [] then ([], p.2)
        else
          let q := readSizedFuel f p.2 (n - p.1.length)
          (p.1 ++ q.1, q.2)

/-- The call `read(n)` for `n ≥ 0`. -/
def readSized (st : StringIterState) (n : Nat) : List Char × StringIterState :=
  readSizedFuel n st n

/-- The unsized loop of `read` (`while True: m = self._read1(); ...`),
with an iteration budget: each pass drains the buffer or consumes iterator
elements, so a budget of `iter.length + 2` always suffices
(`readUnsizedFuel_spec`). -/
def readUnsizedFuel : Nat → StringIterState → List Char × StringIterState
  | 0, st => ([], st)
  | f + 1, st =>
      let p := read1 st none
      if p.1 = [] then ([], p.2)
      else
        let q := readUnsizedFuel f p.2
        (p.1 ++ q.1, q.2)

/-- The calls `read()` and `read(n)` for negative `n`. -/
def readUnsized (st : StringIterState) : List Char × StringIterState :=
  readUnsizedFuel (st.iter.length + 2) st

/-- Model of `StringIteratorIO.read` (testload.py:394-409): unspecified or negative
sizes read everything; otherwise up to `n` characters are gathered. -/
def StringIterState.read (st : StringIterState) (n : Option Int) : List Char × StringIterState :=
  match n with
  | none => readUnsized st
  | some k => if k < 0 then readUnsized st else readSized st k.toNat

/-- A schedule of `read` calls: the list of returned strings and the final
adapter state. -/
def runReads (st : StringIterState) : List (Option Int) → List (List Char) × StringIterState
  | [] => ([], st)
  | n :: ns =>
      let p := st.read n
      let q := runReads p.2 ns
      (p.1 :: q.1, q.2)

/-- The characters still to be delivered by the adapter. -/
def sioContent (st : StringIterState) : List Char :=
  st.buff ++ st.iter.flatten

/-- The drain loop the store client runs against the adapter (`copy_from`
reads `size` characters at a time until it receives the empty string),
with an iteration budget proved sufficient in `drain_spec`. -/
def drainFuel : Nat → StringIterState → Nat → List Char
  | 0, _, _ => []
  | f + 1, st, size =>
      let p := st.read (some (size : Int))
      if p.1 = [] then [] else p.1 ++ drainFuel f p.2 size

/-- Modelled from the spec: `bulk_text_load` consumes the readable stream
by repeated sized reads until end-of-stream (spec sections 4.4 and 6); the
concrete reader is `psycopg2`'s `copy_from`, which is not part of the
repository.  Returns the full text the store receives. -/
def drain (lines : List (List Char)) (size : Nat) : List Char :=
  drainFuel ((sioContent ⟨lines, []⟩).length + 1) ⟨lines, []⟩ size

/-! ## The store's text-copy parser -/

/-- Modelled from the spec: the store's bulk text-load facility splits the
received text into newline-terminated lines (spec section 4.3: one row per
line). -/
def copyLines (text : List Char) : List (List Char) :=
  (pySplit '\n' text).dropLast

/-- Modelled from the spec: the store's parser undoes the encoder's
newline escaping (spec section 4.3: the encoding and the store's parser
agree on delimiter, null token and newline-escaping). -/
def unescapeNl : List Char → List Char
  | [] => []
  | '\\' :: 'n' :: rest => '\n' :: unescapeNl rest
  | c :: rest => c :: unescapeNl rest

/-- Modelled from the spec: one delimited field as the store reads it —
the null token `\N` denotes NULL, anything else is unescaped text. -/
def copyField (s : List Char) : Option (List Char) :=
  if s = ['\\', 'N'] then none else some (unescapeNl s)

/-- Modelled from the spec: the store's `bulk_text_load(table, stream,
'|', '\N')` parser applied to the full received text. -/
def copyDecode (text : List Char) : List StoredRow :=
  (copyLines text).map (fun line => .textRow ((pySplit '|' line).map copyField))

/-! ## The nine batching strategies

Each strategy is `Store → input → Except PyErr Store`: it recreates the
staging table, consumes the record list and hands rows to the store,
aborting on the first error.  `page_size` parameters only group statements
client-side and do not change what rows the store receives, so they are
accepted and unused. -/

/-- Model of `insert_one_by_one` (testload.py:105-134): one normalized
parameterized insert per record. -/
def insert_one_by_one (store : Store) (beers : List RawRecord) : Except PyErr Store :=
  let s := create_staging_table store
  foldlME (fun st beer => do
      let r ← rowViaDict beer
      insertRows st [.params r]) s beers

/-- Model of `insert_executemany` (testload.py:139-170): normalize the whole input
into a list, then `executemany` formats each dict at the named
parameters. -/
def insert_executemany (store : Store) (beers : List RawRecord) : Except PyErr Store := do
  let s := create_staging_table store
  let all_beers ← mapME normalizeBeer beers
  let rows ← mapME extractNamed all_beers
  insertRows s (rows.map .params)

/-- Model of `insert_executemany_iterator` (testload.py:173-201): `executemany`
over a generator — normalization and parameter extraction happen per
record as the generator is consumed. -/
def insert_executemany_iterator (store : Store) (beers : List RawRecord) : Except PyErr Store := do
  let s := create_staging_table store
  let rows ← mapME rowViaDict beers
  insertRows s (rows.map .params)

/-- Model of `insert_execute_batch` (testload.py:208-239): like
`insert_executemany` but batched client-side in pages of `page_size`. -/
def insert_execute_batch (store : Store) (beers : List RawRecord) (page_size : Nat) : Except PyErr Store := do
  let _ := page_size
  let s := create_staging_table store
  let all_beers ← mapME normalizeBeer beers
  let rows ← mapME extractNamed all_beers
  insertRows s (rows.map .params)

/-- Model of `insert_execute_batch_iterator` (testload.py:242-273): `execute_batch`
over a generator of normalized dicts. -/
def insert_execute_batch_iterator (store : Store) (beers : List RawRecord) (page_size : Nat) : Except PyErr Store := do
  let _ := page_size
  let s := create_staging_table store
  let rows ← mapME rowViaDict beers
  insertRows s (rows.map .params)

/-- Model of `insert_execute_values` (testload.py:279-304): a single multi-row
insert from a materialized list of 17-tuples. -/
def insert_execute_values (store : Store) (beers : List RawRecord) : Except PyErr Store := do
  let s := create_staging_table store
  let tuples ← mapME beerTuple beers
  insertRows s (tuples.map .params)

/-- Model of `insert_execute_values_iterator` (testload.py:308-333): as above, fed
from a generator in pages of `page_size`. -/
def insert_execute_values_iterator (store : Store) (beers : List RawRecord) (page_size : Nat) : Except PyErr Store := do
  let _ := page_size
  let s := create_staging_table store
  let tuples ← mapME beerTuple beers
  insertRows s (tuples.map .params)

/-- Model of `copy_stringio` (testload.py:346-372): encode every record into an
in-memory text buffer, then bulk text-load it. -/
def copy_stringio (store : Store) (beers : List RawRecord) : Except PyErr Store := do
  let s := create_staging_table store
  let ls ← mapME stringioLine beers
  insertRows s (copyDecode ls.flatten)

/-- Model of `copy_string_iterator` (testload.py:412-440): wrap the encoded-line
generator in the stream adapter and hand it to the store, which drains it
`size` characters at a time. -/
def copy_string_iterator (store : Store) (beers : List RawRecord) (size : Nat) : Except PyErr Store := do
  let s := create_staging_table store
  let ls ← mapME iteratorLine beers
  insertRows s (copyDecode (drain ls size))

/-- The nine batching strategies under test. -/
inductive Strategy where
  | oneByOne
  | execMany
  | execManyIter
  | execBatch
  | execBatchIter
  | execValues
  | execValuesIter
  | stringio
  | stringIter
  deriving DecidableEq, Repr

/-- Run one strategy against a store state, with the source's default
chunking parameters. -/
def runStrategy : Strategy → Store → List RawRecord → Except PyErr Store
  | .oneByOne => insert_one_by_one
  | .execMany => insert_executemany
  | .execManyIter => insert_executemany_iterator
  | .execBatch => fun s b => insert_execute_batch s b 100
  | .execBatchIter => fun s b => insert_execute_batch_iterator s b 100
  | .execValues => insert_execute_values
  | .execValuesIter => fun s b => insert_execute_values_iterator s b 100
  | .stringio => copy_stringio
  | .stringIter => fun s b => copy_string_iterator s b 8192

/-! ## Auxiliary definitions for the statements -/

/-- Whether an `Except` computation succeeded. -/
def okE {α : Type} : Except PyErr α → Bool
  | .ok _ => true
  | .error _ => false

/-- A well-formed `RawRecord`: every strategy's per-record normalization
and encoding succeeds on it (all 17 keys present, `first_brewed` a
parseable string, `volume` a mapping with a `value`). -/
def wfRecord (b : RawRecord) : Bool :=
  okE (normalizeBeer b) && okE (rowViaDict b) && okE (beerTuple b) &&
    okE (stringioLine b) && okE (iteratorLine b)

/-- The error `parse_first_brewed` raises on an unrecognized format — the
spec's `FormatError`. -/
def dateFormatErr : PyErr := .assertionError "Unknown date format"

/-- A concrete well-formed record (the spec's `id = 1` scenario record,
with scalar fields filled in). -/
def demoBeer : RawRecord :=
  [("id", .pint 1), ("name", .pstr "Buzz".data), ("tagline", .pstr "T".data),
   ("first_brewed", .pstr "09/2007".data), ("description", .pstr "D".data),
   ("image_url", .pstr "U".data), ("abv", .pint 4), ("ibu", .pint 60),
   ("target_fg", .pint 1010), ("target_og", .pint 1044), ("ebc", .pint 20),
   ("srm", .pint 10), ("ph", .pint 4), ("attenuation_level", .pint 75),
   ("brewers_tips", .pstr "tipA".data), ("contributed_by", .pstr "Sam".data),
   ("volume", .pdict [("value", .sint 20), ("unit", .sstr "litres".data)])]

/-- The record `demoBeer` with a three-part `first_brewed` token (the spec's concrete
malformed-date scenario). -/
def badDateBeer : RawRecord :=
  dictSet demoBeer "first_brewed" (.pstr "09/06/2007".data)

/-- The record `demoBeer` with the nested `volume` entry removed. -/
def noVolumeBeer : RawRecord :=
  demoBeer.filter (fun kv => kv.1 ≠ "volume")

/-- The claimed `read(n)` state machine, following the claim's words: pull
while the pending buffer is empty, then return up to `n` characters of the
buffer (all of it, looping pulls until exhaustion, when `n` is unspecified
or negative), keeping the remainder as the new buffer.  Stated for
comparison with the implemented `read`. -/
def specReadMachine (st : StringIterState) (n : Option Int) : List Char × StringIterState :=
  let p := if st.buff = [] then pullLoop st.iter else (st.buff, st.iter)
  match n with
  | some k =>
      if 0 ≤ k then (p.1.take k.toNat, ⟨p.2, p.1.drop k.toNat⟩)
      else (p.1 ++ p.2.flatten, ⟨[], []⟩)
  | none => (p.1 ++ p.2.flatten, ⟨[], []⟩)

/-! # Theorems -/

/-! ## Generalities about `Except` -/

@[simp] theorem bindE_ok {α β : Type} (a : α) (f : α → Except PyErr β) :
    (Except.ok a >>= f) = f a := rfl

@[simp] theorem bindE_error {α β : Type} (e : PyErr) (f : α → Except PyErr β) :
    ((Except.error e : Except PyErr α) >>= f) = .error e := rfl

@[simp] theorem pureE {α : Type} (a : α) : (pure a : Except PyErr α) = .ok a := rfl

theorem okE_iff {α : Type} {x : Except PyErr α} : okE x = true ↔ ∃ a, x = .ok a := by
  cases x <;> simp [okE]

/-! ## Date parsing -/

theorem decAux_digits {cs : List Char} {a n : Nat} (h : decAux a cs = some n) :
    ∀ c ∈ cs, '0' ≤ c ∧ c ≤ '9' := by
  induction cs generalizing a with
  | nil => intro c hc; cases hc
  | cons d ds ih =>
      intro c hc
      unfold decAux at h
      cases hdv : digitVal d with
      | none => rw [hdv] at h; cases h
      | some k =>
          rw [hdv] at h
          rcases List.mem_cons.mp hc with rfl | hc'
          · unfold digitVal at hdv
            by_cases hb : '0' ≤ c ∧ c ≤ '9'
            · exact hb
            · rw [if_neg hb] at hdv; cases hdv
          · exact ih h c hc'

theorem pyIntAbs_digits {cs : List Char} {n : Nat} (h : pyIntAbs cs = some n) :
    ∀ c ∈ cs, '0' ≤ c ∧ c ≤ '9' := by
  unfold pyIntAbs at h
  by_cases hcs : cs = []
  · rw [if_pos hcs] at h; cases h
  · rw [if_neg hcs] at h; exact decAux_digits h

theorem pyInt_no_slash {cs : List Char} {v : Int} (h : pyInt cs = .ok v) :
    '/' ∉ cs := by
  intro hmem
  match cs, hmem with
  | c :: rest, hmem =>
      simp only [pyInt] at h
      by_cases hminus : c = '-'
      · rw [if_pos hminus] at h
        cases habs : pyIntAbs rest with
        | none => rw [habs] at h; cases h
        | some k =>
            rcases List.mem_cons.mp hmem with rfl | hr
            · exact absurd hminus (by decide)
            · have := pyIntAbs_digits habs _ hr
              exact absurd this (by decide)
      · rw [if_neg hminus] at h
        by_cases hplus : c = '+'
        · rw [if_pos hplus] at h
          cases habs : pyIntAbs rest with
          | none => rw [habs] at h; cases h
          | some k =>
              rcases List.mem_cons.mp hmem with rfl | hr
              · exact absurd hplus (by decide)
              · have := pyIntAbs_digits habs _ hr
                exact absurd this (by decide)
        · rw [if_neg hplus] at h
          cases habs : pyIntAbs (c :: rest) with
          | none => rw [habs] at h; cases h
          | some k =>
              have := pyIntAbs_digits habs _ hmem
              exact absurd this (by decide)

theorem pySplit_no_sep {sep : Char} {cs : List Char} (h : sep ∉ cs) :
    pySplit sep cs = [cs] := by
  induction cs with
  | nil => rfl
  | cons c rest ih =>
      have hc : ¬ c = sep := fun e => h (e ▸ List.mem_cons_self c rest)
      have hr : sep ∉ rest := fun hm => h (List.mem_cons_of_mem _ hm)
      simp only [pySplit]
      rw [if_neg hc, ih hr]

theorem pySplit_append {sep : Char} {a b : List Char} (h : sep ∉ a) :
    pySplit sep (a ++ sep :: b) = a :: pySplit sep b := by
  induction a with
  | nil => simp only [List.nil_append, pySplit, if_pos]
  | cons c a' ih =>
      have hc : ¬ c = sep := fun e => h (e ▸ List.mem_cons_self c a')
      have ha : sep ∉ a' := fun hm => h (List.mem_cons_of_mem _ hm)
      simp only [List.cons_append, pySplit, List.append_eq]
      rw [if_neg hc, ih ha]

theorem daysInMonth_pos (y m : Nat) : 1 ≤ daysInMonth y m := by
  unfold daysInMonth
  split
  · split <;> omega
  · split <;> omega

/-- C2: for every input of the form `MM/YYYY` — two `'/'`-separated numeric
parts with `MM` a valid month (and `YYYY` a year `datetime.date` can
represent) — `parse_first_brewed` returns the first day of that month and
year; and for every one-part numeric input `YYYY` it returns January 1 of
that year. -/
theorem c2_parse_first_brewed (mcs ycs : List Char) (m y : Nat)
    (hm : pyInt mcs = .ok (m : Int)) (hy : pyInt ycs = .ok (y : Int))
    (hm1 : 1 ≤ m) (hm12 : m ≤ 12) (hy1 : 1 ≤ y) (hy9999 : y ≤ 9999) :
    parse_first_brewed (mcs ++ '/' :: ycs) = .ok ⟨y, m, 1⟩ ∧
    parse_first_brewed ycs = .ok ⟨y, 1, 1⟩ := by
  have hsm : '/' ∉ mcs := pyInt_no_slash hm
  have hsy : '/' ∉ ycs := pyInt_no_slash hy
  have hdate : ∀ mo : Nat, 1 ≤ mo → mo ≤ 12 →
      pyDate (y : Int) (mo : Int) 1 = .ok ⟨y, mo, 1⟩ := by
    intro mo h1 h12
    unfold pyDate
    rw [if_pos]
    · simp
    · refine ⟨by exact_mod_cast hy1, by exact_mod_cast hy9999,
        by exact_mod_cast h1, by exact_mod_cast h12, by omega, ?_⟩
      have := daysInMonth_pos ((y : Int).toNat) ((mo : Int).toNat)
      omega
  constructor
  · unfold parse_first_brewed
    rw [pySplit_append hsm, pySplit_no_sep hsy]
    simp only [hy, hm, bindE_ok]
    exact hdate m hm1 hm12
  · unfold parse_first_brewed
    rw [pySplit_no_sep hsy]
    simp only [hy, bindE_ok]
    exact hdate 1 (by omega) (by omega)

/-- Witness for C2 at the spec's concrete scenario inputs. -/
theorem c2_witness :
    parse_first_brewed ("09/2007".data) = .ok ⟨2007, 9, 1⟩ ∧
    parse_first_brewed ("2016".data) = .ok ⟨2016, 1, 1⟩ := by
  have h1 := c2_parse_first_brewed "09".data "2007".data 9 2007 (by decide)
    (by decide) (by decide) (by decide) (by decide) (by decide)
  have h2 := c2_parse_first_brewed "09".data "2016".data 9 2016 (by decide)
    (by decide) (by decide) (by decide) (by decide) (by decide)
  exact ⟨h1.1, h2.2⟩

/-! ## C3: malformed `first_brewed` tokens -/

/-- C3, counterexample to the claim as stated: on the three-part token the
error is the `AssertionError` with message `'Unknown date format'`, not one
carrying the spec's message `"unrecognized first_brewed format"`. -/
theorem c3_counterexample :
    parse_first_brewed "09/06/2007".data = .error (.assertionError "Unknown date format") ∧
    parse_first_brewed "09/06/2007".data ≠ .error (.assertionError "unrecognized first_brewed format") := by
  decide

theorem parse_first_brewed_multi {text : List Char}
    (h : 3 ≤ (pySplit '/' text).length) :
    parse_first_brewed text = .error dateFormatErr := by
  unfold parse_first_brewed
  rcases hps : pySplit '/' text with _ | ⟨x, _ | ⟨y, _ | ⟨z, l⟩⟩⟩ <;>
    rw [hps] at h <;> simp [dateFormatErr] at h ⊢

theorem mapME_abort {α β : Type} (f : α → Except PyErr β) {pre : List α}
    (bad : α) (post : List α) {e : PyErr}
    (hpre : ∀ a ∈ pre, okE (f a) = true) (hbad : f bad = .error e) :
    mapME f (pre ++ bad :: post) = .error e := by
  induction pre with
  | nil => simp [mapME, hbad]
  | cons a as ih =>
      obtain ⟨b, hb⟩ := okE_iff.mp (hpre a (List.mem_cons_self a as))
      simp [mapME, hb, ih (fun x hx => hpre x (List.mem_cons_of_mem _ hx))]

theorem foldlME_abort {α : Type} (f : Store → α → Except PyErr Store)
    {pre : List α} (bad : α) (post : List α) (e : PyErr)
    (hpre : ∀ a ∈ pre, ∀ t : List StoredRow, ∃ t', f (some t) a = .ok (some t'))
    (hbad : ∀ t : List StoredRow, f (some t) bad = .error e) :
    ∀ t : List StoredRow, foldlME f (some t) (pre ++ bad :: post) = .error e := by
  induction pre with
  | nil => intro t; simp [foldlME, hbad t]
  | cons a as ih =>
      intro t
      obtain ⟨t', ht⟩ := hpre a (List.mem_cons_self a as) t
      simp only [List.cons_append, foldlME, ht, bindE_ok]
      exact ih (fun x hx => hpre x (List.mem_cons_of_mem _ hx)) t'

theorem wfRecord_parts {b : RawRecord} (h : wfRecord b = true) :
    okE (normalizeBeer b) = true ∧ okE (rowViaDict b) = true ∧
    okE (beerTuple b) = true ∧ okE (stringioLine b) = true ∧
    okE (iteratorLine b) = true := by
  simpa [wfRecord, Bool.and_eq_true, and_assoc] using h

theorem normalizeBeer_badParse {bad : RawRecord} {s : List Char} {e : PyErr}
    (hfb : dictGet bad "first_brewed" = .ok (.pstr s))
    (hp : parse_first_brewed s = .error e) :
    normalizeBeer bad = .error e := by
  simp [normalizeBeer, firstBrewedDate, hfb, hp]

theorem rowViaDict_badParse {bad : RawRecord} {s : List Char} {e : PyErr}
    (hfb : dictGet bad "first_brewed" = .ok (.pstr s))
    (hp : parse_first_brewed s = .error e) :
    rowViaDict bad = .error e := by
  simp [rowViaDict, normalizeBeer_badParse hfb hp]

theorem beerTuple_badParse {bad : RawRecord} {s : List Char} {e : PyErr}
    (hid : okE (dictGet bad "id") = true) (hname : okE (dictGet bad "name") = true)
    (htag : okE (dictGet bad "tagline") = true)
    (hfb : dictGet bad "first_brewed" = .ok (.pstr s))
    (hp : parse_first_brewed s = .error e) :
    beerTuple bad = .error e := by
  obtain ⟨v1, h1⟩ := okE_iff.mp hid
  obtain ⟨v2, h2⟩ := okE_iff.mp hname
  obtain ⟨v3, h3⟩ := okE_iff.mp htag
  simp [beerTuple, h1, h2, h3, firstBrewedDate, hfb, hp]

theorem stringioLine_badParse {bad : RawRecord} {s : List Char} {e : PyErr}
    (hid : okE (dictGet bad "id") = true) (hname : okE (dictGet bad "name") = true)
    (htag : okE (dictGet bad "tagline") = true)
    (hfb : dictGet bad "first_brewed" = .ok (.pstr s))
    (hp : parse_first_brewed s = .error e) :
    stringioLine bad = .error e := by
  obtain ⟨v1, h1⟩ := okE_iff.mp hid
  obtain ⟨v2, h2⟩ := okE_iff.mp hname
  obtain ⟨v3, h3⟩ := okE_iff.mp htag
  simp [stringioLine, stringioFields, h1, h2, h3, firstBrewedDate, hfb, hp]

theorem iteratorLine_badParse {bad : RawRecord} {s : List Char} {e : PyErr}
    (hid : okE (dictGet bad "id") = true) (hname : okE (dictGet bad "name") = true)
    (htag : okE (dictGet bad "tagline") = true)
    (hfb : dictGet bad "first_brewed" = .ok (.pstr s))
    (hp : parse_first_brewed s = .error e) :
    iteratorLine bad = .error e := by
  obtain ⟨v1, h1⟩ := okE_iff.mp hid
  obtain ⟨v2, h2⟩ := okE_iff.mp hname
  obtain ⟨v3, h3⟩ := okE_iff.mp htag
  simp [iteratorLine, iteratorFields, h1, h2, h3, firstBrewedDate, hfb, hp]

/-- C3 (amended): a `first_brewed` token whose `'/'`-split has more than
two parts (zero parts cannot occur: a split is never empty) makes
`parse_first_brewed` fail with the format error — the `AssertionError`
whose message is `'Unknown date format'` (the spec's `FormatError`, but
with this message rather than the claimed `"unrecognized first_brewed
format"`) — and for every batching strategy a record carrying such a token,
placed after any well-formed records, aborts the whole load with exactly
that error (no row-skipping). -/
theorem c3_format_error_aborts :
    (∀ text : List Char, 3 ≤ (pySplit '/' text).length →
       parse_first_brewed text = .error dateFormatErr) ∧
    (∀ (pre post : List RawRecord) (bad : RawRecord) (s : List Char)
       (strat : Strategy) (store : Store),
       (∀ b ∈ pre, wfRecord b = true) →
       okE (dictGet bad "id") = true → okE (dictGet bad "name") = true →
       okE (dictGet bad "tagline") = true →
       dictGet bad "first_brewed" = .ok (.pstr s) →
       3 ≤ (pySplit '/' s).length →
       runStrategy strat store (pre ++ bad :: post) = .error dateFormatErr) := by
  refine ⟨fun text h => parse_first_brewed_multi h, ?_⟩
  intro pre post bad s strat store hwf hid hname htag hfb hparts
  have hp : parse_first_brewed s = .error dateFormatErr := parse_first_brewed_multi hparts
  have hnorm : ∀ a ∈ pre, okE (normalizeBeer a) = true := fun a ha => (wfRecord_parts (hwf a ha)).1
  have hrow : ∀ a ∈ pre, okE (rowViaDict a) = true := fun a ha => (wfRecord_parts (hwf a ha)).2.1
  have htup : ∀ a ∈ pre, okE (beerTuple a) = true := fun a ha => (wfRecord_parts (hwf a ha)).2.2.1
  have hsio : ∀ a ∈ pre, okE (stringioLine a) = true := fun a ha => (wfRecord_parts (hwf a ha)).2.2.2.1
  have hit : ∀ a ∈ pre, okE (iteratorLine a) = true := fun a ha => (wfRecord_parts (hwf a ha)).2.2.2.2
  cases strat with
  | oneByOne =>
      have habort := foldlME_abort
        (fun st beer => do
          let r ← rowViaDict beer
          insertRows st [.params r]) bad post dateFormatErr
        (fun a ha t => by
          obtain ⟨r, hr⟩ := okE_iff.mp (hrow a ha)
          exact ⟨t ++ [.params r], by simp [hr, insertRows]⟩)
        (fun t => by simp [rowViaDict_badParse hfb hp]) []
      simpa [runStrategy, insert_one_by_one, create_staging_table] using habort
  | execMany =>
      have habort := mapME_abort normalizeBeer bad post hnorm
        (normalizeBeer_badParse hfb hp)
      simp [runStrategy, insert_executemany, habort]
  | execManyIter =>
      have habort := mapME_abort rowViaDict bad post hrow
        (rowViaDict_badParse hfb hp)
      simp [runStrategy, insert_executemany_iterator, habort]
  | execBatch =>
      have habort := mapME_abort normalizeBeer bad post hnorm
        (normalizeBeer_badParse hfb hp)
      simp [runStrategy, insert_execute_batch, habort]
  | execBatchIter =>
      have habort := mapME_abort rowViaDict bad post hrow
        (rowViaDict_badParse hfb hp)
      simp [runStrategy, insert_execute_batch_iterator, habort]
  | execValues =>
      have habort := mapME_abort beerTuple bad post htup
        (beerTuple_badParse hid hname htag hfb hp)
      simp [runStrategy, insert_execute_values, habort]
  | execValuesIter =>
      have habort := mapME_abort beerTuple bad post htup
        (beerTuple_badParse hid hname htag hfb hp)
      simp [runStrategy, insert_execute_values_iterator, habort]
  | stringio =>
      have habort := mapME_abort stringioLine bad post hsio
        (stringioLine_badParse hid hname htag hfb hp)
      simp [runStrategy, copy_stringio, habort]
  | stringIter =>
      have habort := mapME_abort iteratorLine bad post hit
        (iteratorLine_badParse hid hname htag hfb hp)
      simp [runStrategy, copy_string_iterator, habort]

/-- Witness for C3: the spec's `09/06/2007` scenario record, preceded by a
well-formed record, aborts a concrete load. -/
theorem c3_witness :
    runStrategy .oneByOne none [demoBeer, badDateBeer] = .error dateFormatErr := by
  have h := c3_format_error_aborts.2 [demoBeer] [] badDateBeer
    "09/06/2007".data .oneByOne none
    (by intro b hb; simp only [List.mem_singleton] at hb; subst hb; decide)
    (by decide) (by decide) (by decide) (by decide) (by decide)
  simpa using h

/-! ## C4: missing `volume.value` -/

theorem normalizeBeer_badVolume {b : RawRecord} {s : List Char} {dt : PyDate} {e : PyErr}
    (hfb : dictGet b "first_brewed" = .ok (.pstr s))
    (hp : parse_first_brewed s = .ok dt)
    (hv : volumeValue b = .error e) :
    normalizeBeer b = .error e := by
  simp [normalizeBeer, firstBrewedDate, hfb, hp, hv]

/-- C4: a record lacking the nested `volume.value` entry — the `volume`
key absent, or its mapping lacking `value` — makes the volume extraction
`beer['volume']['value']` raise the corresponding `KeyError` (the spec's
`SchemaError`), and on such a record (otherwise well-formed up to that
lookup) the per-record normalization of every batching strategy — the
parameter-dict pipeline of the five dict-based strategies, the 17-tuple of
the two `execute_values` strategies, and the encoded line of the two copy
strategies — fails with exactly that error. -/
theorem c4_missing_volume_schema_error :
    (∀ b : RawRecord, dictGet b "volume" = .error (.keyError "volume") →
       volumeValue b = .error (.keyError "volume")) ∧
    (∀ (b : RawRecord) (vd : List (String × PyScalar)),
       dictGet b "volume" = .ok (.pdict vd) →
       dictGet vd "value" = .error (.keyError "value") →
       volumeValue b = .error (.keyError "value")) ∧
    (∀ (b : RawRecord) (s : List Char) (dt : PyDate) (e : PyErr),
       (["id", "name", "tagline", "description", "image_url", "abv", "ibu",
         "target_fg", "target_og", "ebc", "srm", "ph", "attenuation_level",
         "brewers_tips", "contributed_by"].all
           (fun k => okE (dictGet b k))) = true →
       dictGet b "first_brewed" = .ok (.pstr s) →
       parse_first_brewed s = .ok dt →
       volumeValue b = .error e →
       normalizeBeer b = .error e ∧ rowViaDict b = .error e ∧
       beerTuple b = .error e ∧ stringioLine b = .error e ∧
       iteratorLine b = .error e) := by
  refine ⟨fun b h => by simp [volumeValue, h], fun b vd h hv => by simp [volumeValue, h, hv], ?_⟩
  intro b s dt e hks hfb hp hv
  have hall := List.all_eq_true.mp hks
  obtain ⟨v1, h1⟩ := okE_iff.mp (hall "id" (by simp))
  obtain ⟨v2, h2⟩ := okE_iff.mp (hall "name" (by simp))
  obtain ⟨v3, h3⟩ := okE_iff.mp (hall "tagline" (by simp))
  obtain ⟨v5, h5⟩ := okE_iff.mp (hall "description" (by simp))
  obtain ⟨v6, h6⟩ := okE_iff.mp (hall "image_url" (by simp))
  obtain ⟨v7, h7⟩ := okE_iff.mp (hall "abv" (by simp))
  obtain ⟨v8, h8⟩ := okE_iff.mp (hall "ibu" (by simp))
  obtain ⟨v9, h9⟩ := okE_iff.mp (hall "target_fg" (by simp))
  obtain ⟨v10, h10⟩ := okE_iff.mp (hall "target_og" (by simp))
  obtain ⟨v11, h11⟩ := okE_iff.mp (hall "ebc" (by simp))
  obtain ⟨v12, h12⟩ := okE_iff.mp (hall "srm" (by simp))
  obtain ⟨v13, h13⟩ := okE_iff.mp (hall "ph" (by simp))
  obtain ⟨v14, h14⟩ := okE_iff.mp (hall "attenuation_level" (by simp))
  obtain ⟨v15, h15⟩ := okE_iff.mp (hall "brewers_tips" (by simp))
  obtain ⟨v16, h16⟩ := okE_iff.mp (hall "contributed_by" (by simp))
  have hn : normalizeBeer b = .error e := normalizeBeer_badVolume hfb hp hv
  refine ⟨hn, by simp [rowViaDict, hn], ?_, ?_, ?_⟩
  · simp [beerTuple, h1, h2, h3, h5, h6, h7, h8, h9, h10, h11, h12, h13,
      h14, h15, h16, firstBrewedDate, hfb, hp, hv]
  · simp [stringioLine, stringioFields, h1, h2, h3, h5, h6, h7, h8, h9,
      h10, h11, h12, h13, h14, h15, h16, firstBrewedDate, hfb, hp, hv]
  · simp [iteratorLine, iteratorFields, h1, h2, h3, h5, h6, h7, h8, h9,
      h10, h11, h12, h13, h14, h15, h16, firstBrewedDate, hfb, hp, hv]

/-- Witness for C4: the demo record with its `volume` entry removed fails
every per-record normalization with `KeyError 'volume'`. -/
theorem c4_witness :
    volumeValue noVolumeBeer = .error (.keyError "volume") ∧
    normalizeBeer noVolumeBeer = .error (.keyError "volume") ∧
    beerTuple noVolumeBeer = .error (.keyError "volume") ∧
    stringioLine noVolumeBeer = .error (.keyError "volume") ∧
    iteratorLine noVolumeBeer = .error (.keyError "volume") := by
  have hv := c4_missing_volume_schema_error.1 noVolumeBeer (by decide)
  have h := c4_missing_volume_schema_error.2.2 noVolumeBeer "09/2007".data
    ⟨2007, 9, 1⟩ (.keyError "volume") (by decide) (by decide) (by decide) hv
  exact ⟨hv, h.1, h.2.2.1, h.2.2.2.1, h.2.2.2.2⟩

/-! ## C6: the row encoder -/

theorem replaceNl_no_nl (s : List Char) : '\n' ∉ replaceNl s := by
  induction s with
  | nil => simp [replaceNl]
  | cons c rest ih =>
      by_cases hc : c = '\n'
      · simp only [replaceNl, if_pos hc, List.mem_cons]
        rintro (h | h | h)
        · cases h
        · cases h
        · exact ih h
      · simp only [replaceNl, if_neg hc, List.mem_cons]
        rintro (h | h)
        · exact hc h.symm
        · exact ih h

theorem replaceNl_append_nl {s : List Char} (t : List Char) (h : '\n' ∉ s) :
    replaceNl (s ++ '\n' :: t) = s ++ '\\' :: 'n' :: replaceNl t := by
  induction s with
  | nil => simp [replaceNl]
  | cons c rest ih =>
      have hc : ¬ c = '\n' := fun e => h (e ▸ List.mem_cons_self c rest)
      have hr : '\n' ∉ rest := fun hm => h (List.mem_cons_of_mem _ hm)
      simp only [List.cons_append, replaceNl, if_neg hc, List.append_eq, ih hr]

theorem clean_csv_value_no_nl (v : PyVal) : '\n' ∉ clean_csv_value v := by
  cases v with
  | pnone => decide
  | pint i => exact replaceNl_no_nl _
  | pstr s => exact replaceNl_no_nl _
  | pdate d => exact replaceNl_no_nl _
  | pdict entries => exact replaceNl_no_nl _

theorem joinSep_no_nl {parts : List (List Char)}
    (h : ∀ p ∈ parts, '\n' ∉ p) : '\n' ∉ joinSep '|' parts := by
  induction parts with
  | nil => simp [joinSep]
  | cons x xs ih =>
      cases xs with
      | nil => simpa [joinSep] using h x (List.mem_cons_self x [])
      | cons y ys =>
          simp only [joinSep, List.mem_append, List.mem_cons]
          rintro (hx | hsep | hj)
          · exact h x (List.mem_cons_self x (y :: ys)) hx
          · cases hsep
          · exact ih (fun p hp => h p (List.mem_cons_of_mem _ hp)) hj

/-- C6: the row encoder renders `None` as the two-character null sentinel
`\N`, replaces every embedded newline in a field's text with the
two-character literal backslash-n, and terminates each encoded row with
exactly one newline, so every encoded row is exactly one line. -/
theorem c6_row_encoder :
    clean_csv_value .pnone = ['\\', 'N'] ∧
    (∀ s t : List Char, '\n' ∉ s →
       clean_csv_value (.pstr (s ++ '\n' :: t)) = s ++ '\\' :: 'n' :: replaceNl t) ∧
    (∀ fields : List PyVal, ∃ l, encodeRow fields = l ++ ['\n'] ∧ '\n' ∉ l) := by
  refine ⟨rfl, ?_, ?_⟩
  · intro s t h
    show replaceNl (s ++ '\n' :: t) = s ++ '\\' :: 'n' :: replaceNl t
    exact replaceNl_append_nl t h
  · intro fields
    refine ⟨joinSep '|' (fields.map clean_csv_value), rfl, ?_⟩
    refine joinSep_no_nl ?_
    intro p hp
    obtain ⟨v, _, rfl⟩ := List.mem_map.mp hp
    exact clean_csv_value_no_nl v

/-- Witness for C6: a field with an embedded newline encodes to a single
line with the newline escaped. -/
theorem c6_witness :
    clean_csv_value (.pstr ("ab\ncd".data)) = "ab\\ncd".data := by
  have h := c6_row_encoder.2.1 "ab".data "cd".data (by decide)
  exact h

/-! ## C9: idempotence of a load -/

/-- C9: every strategy invocation first drops and recreates the staging
table, so its result is independent of the table's prior state; in
particular a successful load rerun on its own resulting table yields
exactly the same table — the table is fully replaced, never appended. -/
theorem c9_idempotent_load :
    (∀ (strat : Strategy) (beers : List RawRecord) (s1 s2 : Store),
       runStrategy strat s1 beers = runStrategy strat s2 beers) ∧
    (∀ (strat : Strategy) (beers : List RawRecord) (s t : Store),
       runStrategy strat s beers = .ok t → runStrategy strat t beers = .ok t) := by
  have hindep : ∀ (strat : Strategy) (beers : List RawRecord) (s1 s2 : Store),
      runStrategy strat s1 beers = runStrategy strat s2 beers := by
    intro strat beers s1 s2
    cases strat <;> rfl
  exact ⟨hindep, fun strat beers s t h => (hindep strat beers t s).trans h⟩

/-- Witness for C9: a load rerun on its own output table gives the same
table, and the result does not depend on the prior table state. -/
theorem c9_witness :
    runStrategy .oneByOne (some []) [] = .ok (some []) ∧
    runStrategy .oneByOne (some [.params []]) [demoBeer] =
      runStrategy .oneByOne none [demoBeer] := by
  exact ⟨c9_idempotent_load.2 .oneByOne [] none (some []) (by decide),
    c9_idempotent_load.1 .oneByOne [demoBeer] (some [.params []]) none⟩

/-! ## C1 and C5: the swapped columns of `copy_stringio` -/

/-- C1 (code bug): the normalized form of the demo record has
`brewers_tips = "tipA"` and `contributed_by = "Sam"` in positions 15 and
16, and `copy_string_iterator` hands the store exactly that row — but
`copy_stringio` hands the store a row with the two fields swapped
(testload.py:367-368 lists `contributed_by` before `brewers_tips`), so its
stored row does not equal the normalized record. -/
theorem c1_copy_stringio_swaps_fields :
    rowViaDict demoBeer = .ok [.pint 1, .pstr "Buzz".data, .pstr "T".data,
      .pdate ⟨2007, 9, 1⟩, .pstr "D".data, .pstr "U".data, .pint 4, .pint 60,
      .pint 1010, .pint 1044, .pint 20, .pint 10, .pint 4, .pint 75,
      .pstr "tipA".data, .pstr "Sam".data, .pint 20] ∧
    runStrategy .stringio none [demoBeer] = .ok (some [.textRow
      [some "1".data, some "Buzz".data, some "T".data, some "2007-09-01".data,
       some "D".data, some "U".data, some "4".data, some "60".data,
       some "1010".data, some "1044".data, some "20".data, some "10".data,
       some "4".data, some "75".data, some "Sam".data, some "tipA".data,
       some "20".data]]) ∧
    runStrategy .stringIter none [demoBeer] = .ok (some [.textRow
      [some "1".data, some "Buzz".data, some "T".data, some "2007-09-01".data,
       some "D".data, some "U".data, some "4".data, some "60".data,
       some "1010".data, some "1044".data, some "20".data, some "10".data,
       some "4".data, some "75".data, some "tipA".data, some "Sam".data,
       some "20".data]]) ∧
    "Sam".data ≠ "tipA".data := by
  decide

/-- C5 (code bug): on the demo record the `copy_stringio` encoder emits the
17 fields with `contributed_by` ("Sam") in position 15 and `brewers_tips`
("tipA") in position 16, the reverse of the staging-table column order used
by the `execute_values` tuple and the `copy_string_iterator` encoder. -/
theorem c5_copy_stringio_field_order :
    beerTuple demoBeer = .ok [.pint 1, .pstr "Buzz".data, .pstr "T".data,
      .pdate ⟨2007, 9, 1⟩, .pstr "D".data, .pstr "U".data, .pint 4, .pint 60,
      .pint 1010, .pint 1044, .pint 20, .pint 10, .pint 4, .pint 75,
      .pstr "tipA".data, .pstr "Sam".data, .pint 20] ∧
    stringioFields demoBeer = .ok [.pint 1, .pstr "Buzz".data, .pstr "T".data,
      .pdate ⟨2007, 9, 1⟩, .pstr "D".data, .pstr "U".data, .pint 4, .pint 60,
      .pint 1010, .pint 1044, .pint 20, .pint 10, .pint 4, .pint 75,
      .pstr "Sam".data, .pstr "tipA".data, .pint 20] ∧
    iteratorFields demoBeer = .ok [.pint 1, .pstr "Buzz".data, .pstr "T".data,
      .pstr "2007-09-01".data, .pstr "D".data, .pstr "U".data, .pint 4,
      .pint 60, .pint 1010, .pint 1044, .pint 20, .pint 10, .pint 4,
      .pint 75, .pstr "tipA".data, .pstr "Sam".data, .pint 20] ∧
    stringioFields demoBeer ≠ beerTuple demoBeer := by
  decide

/-! ## The stream adapter: basic lemmas -/

theorem pullLoop_flatten (l : List (List Char)) :
    (pullLoop l).1 ++ (pullLoop l).2.flatten = l.flatten := by
  induction l with
  | nil => rfl
  | cons s rest ih =>
      by_cases hs : s = []
      · simp [pullLoop, hs, ih]
      · simp [pullLoop, hs]

theorem pullLoop_nil {l : List (List Char)} (h : (pullLoop l).1 = []) :
    (pullLoop l).2 = [] ∧ l.flatten = [] := by
  induction l with
  | nil => exact ⟨rfl, rfl⟩
  | cons s rest ih =>
      by_cases hs : s = []
      · simp only [pullLoop, if_pos hs] at h
        obtain ⟨h1, h2⟩ := ih h
        refine ⟨?_, ?_⟩
        · simp only [pullLoop, if_pos hs]
          exact h1
        · simp [hs, h2]
      · simp only [pullLoop, if_neg hs] at h
        exact absurd h hs

theorem pullLoop_length_lt {l : List (List Char)} (h : (pullLoop l).1 ≠ []) :
    (pullLoop l).2.length < l.length := by
  induction l with
  | nil => exact absurd rfl h
  | cons s rest ih =>
      by_cases hs : s = []
      · simp only [pullLoop, if_pos hs] at h ⊢
        exact Nat.lt_succ_of_lt (ih h)
      · simp [pullLoop, hs]

theorem pullLoop_mem {l : List (List Char)} {x : List Char}
    (h : x ∈ (pullLoop l).2) : x ∈ l := by
  induction l with
  | nil => cases h
  | cons s rest ih =>
      by_cases hs : s = []
      · simp only [pullLoop, if_pos hs] at h
        exact List.mem_cons_of_mem _ (ih h)
      · simp only [pullLoop, if_neg hs] at h
        exact List.mem_cons_of_mem _ h

theorem pullLoop_fst_bound {l : List (List Char)} {L : Nat}
    (hL : ∀ s ∈ l, s.length ≤ L) : (pullLoop l).1.length ≤ L := by
  induction l with
  | nil => simp [pullLoop]
  | cons s rest ih =>
      by_cases hs : s = []
      · simp only [pullLoop, if_pos hs]
        exact ih (fun x hx => hL x (List.mem_cons_of_mem _ hx))
      · simp only [pullLoop, if_neg hs]
        exact hL s (List.mem_cons_self s rest)

theorem drop_length_take (k : Nat) (b : List Char) :
    b.drop (b.take k).length = b.drop k := by
  rw [List.length_take]
  rcases le_total k b.length with h | h
  · rw [min_eq_left h]
  · rw [min_eq_right h, List.drop_eq_nil_of_le le_rfl,
      List.drop_eq_nil_of_le h]

theorem read1_content (st : StringIterState) (o : Option Nat) :
    (read1 st o).1 ++ sioContent (read1 st o).2 = sioContent st := by
  unfold read1 sioContent
  by_cases hb : st.buff = []
  · simp only [if_pos hb]
    cases o with
    | none =>
        simp only [List.drop_length]
        rw [← List.append_assoc, List.append_nil, pullLoop_flatten, hb,
          List.nil_append]
    | some k =>
        rw [← List.append_assoc, drop_length_take, List.take_append_drop,
          pullLoop_flatten, hb, List.nil_append]
  · simp only [if_neg hb]
    cases o with
    | none => simp [List.drop_length]
    | some k =>
        rw [← List.append_assoc, drop_length_take, List.take_append_drop]

theorem read1_sized_nil {st : StringIterState} {k : Nat} (hk : 0 < k)
    (h : (read1 st (some k)).1 = []) : sioContent st = [] := by
  unfold read1 at h
  by_cases hb : st.buff = []
  · simp only [if_pos hb] at h
    rcases List.take_eq_nil_iff.mp h with hk0 | hnil
    · omega
    · obtain ⟨_, hfl⟩ := pullLoop_nil hnil
      simp [sioContent, hb, hfl]
  · simp only [if_neg hb] at h
    rcases List.take_eq_nil_iff.mp h with hk0 | hnil
    · omega
    · exact absurd hnil hb

theorem read1_sized_len (st : StringIterState) (k : Nat) :
    (read1 st (some k)).1.length ≤ k := by
  unfold read1
  by_cases hb : st.buff = [] <;> simp [hb, List.length_take]

theorem readSizedFuel_spec : ∀ (f n : Nat) (st : StringIterState), n ≤ f →
    (readSizedFuel f st n).1 = (sioContent st).take n ∧
    sioContent (readSizedFuel f st n).2 = (sioContent st).drop n := by
  intro f
  induction f with
  | zero =>
      intro n st hn
      have h0 : n = 0 := Nat.le_zero.mp hn
      subst h0
      simp [readSizedFuel]
  | succ f ih =>
      intro n st hn
      by_cases hn0 : n = 0
      · subst hn0; simp [readSizedFuel]
      · have hlemma := read1_content st (some n)
        by_cases hp : (read1 st (some n)).1 = []
        · have hc : sioContent st = [] :=
            read1_sized_nil (Nat.pos_of_ne_zero hn0) hp
          have hc2 : sioContent (read1 st (some n)).2 = [] := by
            rw [hc, hp, List.nil_append] at hlemma
            exact hlemma
          simp only [readSizedFuel]
          rw [if_neg hn0, if_pos hp]
          rw [hc, hc2]
          simp
        · have hlen : (read1 st (some n)).1.length ≤ n := read1_sized_len st n
          have hpos : 0 < (read1 st (some n)).1.length := List.length_pos.mpr hp
          obtain ⟨hq1, hq2⟩ := ih (n - (read1 st (some n)).1.length)
            (read1 st (some n)).2 (by omega)
          simp only [readSizedFuel]
          rw [if_neg hn0, if_neg hp]
          constructor
          · show (read1 st (some n)).1 ++
              (readSizedFuel f (read1 st (some n)).2
                (n - (read1 st (some n)).1.length)).1 = (sioContent st).take n
            rw [hq1, ← hlemma, List.take_append_eq_append_take,
              List.take_of_length_le hlen]
          · show sioContent (readSizedFuel f (read1 st (some n)).2
                (n - (read1 st (some n)).1.length)).2 = (sioContent st).drop n
            rw [hq2, ← hlemma, List.drop_append_eq_append_drop,
              List.drop_eq_nil_of_le hlen, List.nil_append]

theorem readSized_spec (st : StringIterState) (n : Nat) :
    (readSized st n).1 = (sioContent st).take n ∧
    sioContent (readSized st n).2 = (sioContent st).drop n :=
  readSizedFuel_spec n n st le_rfl

theorem readUnsizedFuel_spec : ∀ (f : Nat) (st : StringIterState),
    st.iter.length + (if st.buff = [] then 1 else 2) ≤ f →
    readUnsizedFuel f st = (sioContent st, ⟨[], []⟩) := by
  intro f
  induction f with
  | zero =>
      intro st h
      split at h <;> omega
  | succ f ih =>
      intro st h
      by_cases hb : st.buff = []
      · rw [if_pos hb] at h
        have hval : read1 st none =
            ((pullLoop st.iter).1, ⟨(pullLoop st.iter).2, []⟩) := by
          unfold read1
          rw [if_pos hb]
          simp [List.drop_length]
        by_cases hp : (pullLoop st.iter).1 = []
        · obtain ⟨h2, hfl⟩ := pullLoop_nil hp
          simp only [readUnsizedFuel, hval, hp]
          simp [sioContent, hb, hfl, h2]
        · have hlt := pullLoop_length_lt hp
          have hrec := ih ⟨(pullLoop st.iter).2, []⟩ (by simp; omega)
          simp only [readUnsizedFuel, hval]
          rw [if_neg hp, hrec]
          simp only [sioContent, hb, List.nil_append]
          rw [← pullLoop_flatten st.iter]
      · rw [if_neg hb] at h
        have hval : read1 st none = (st.buff, ⟨st.iter, []⟩) := by
          unfold read1
          rw [if_neg hb]
          simp [List.drop_length]
        have hrec := ih ⟨st.iter, []⟩ (by simp; omega)
        simp only [readUnsizedFuel, hval]
        rw [if_neg hb, hrec]
        rfl

theorem readUnsized_spec (st : StringIterState) :
    readUnsized st = (sioContent st, ⟨[], []⟩) := by
  unfold readUnsized
  exact readUnsizedFuel_spec _ st (by split <;> omega)

theorem read_sized (st : StringIterState) (k : Nat) :
    st.read (some (k : Int)) = readSized st k := by
  simp only [StringIterState.read]
  rw [if_neg (Int.not_lt.mpr (Int.natCast_nonneg k))]
  norm_num

theorem read_neg (st : StringIterState) {k : Int} (h : k < 0) :
    st.read (some k) = readUnsized st := by
  simp only [StringIterState.read]
  rw [if_pos h]

theorem read_content (st : StringIterState) (n : Option Int) :
    (st.read n).1 ++ sioContent (st.read n).2 = sioContent st := by
  cases n with
  | none =>
      simp only [StringIterState.read, readUnsized_spec]
      simp [sioContent]
  | some k =>
      by_cases hk : k < 0
      · rw [read_neg st hk, readUnsized_spec]
        simp [sioContent]
      · have hk' : k = ((k.toNat : Nat) : Int) := by omega
        rw [hk', read_sized]
        obtain ⟨h1, h2⟩ := readSized_spec st k.toNat
        rw [h1, h2, List.take_append_drop]

theorem read_terminal {st : StringIterState} (h : sioContent st = [])
    (n : Option Int) :
    (st.read n).1 = [] ∧ sioContent (st.read n).2 = [] := by
  have hc := read_content st n
  rw [h] at hc
  exact ⟨(List.append_eq_nil.mp hc).1, (List.append_eq_nil.mp hc).2⟩

theorem runReads_conserve : ∀ (ns : List (Option Int)) (st : StringIterState),
    (runReads st ns).1.flatten ++ sioContent (runReads st ns).2 = sioContent st := by
  intro ns
  induction ns with
  | nil => intro st; simp [runReads]
  | cons n ns ih =>
      intro st
      simp only [runReads, List.flatten_cons, List.append_assoc]
      rw [ih (st.read n).2, read_content]

theorem runReads_terminal {st : StringIterState} (h : sioContent st = []) :
    ∀ ns : List (Option Int),
      (∀ out ∈ (runReads st ns).1, out = []) ∧
      sioContent (runReads st ns).2 = [] := by
  have main : ∀ (ns : List (Option Int)) (st' : StringIterState),
      sioContent st' = [] →
      (∀ out ∈ (runReads st' ns).1, out = []) ∧
      sioContent (runReads st' ns).2 = [] := by
    intro ns
    induction ns with
    | nil => intro st' h'; exact ⟨by simp [runReads], by simpa [runReads] using h'⟩
    | cons n ns ih =>
        intro st' h'
        obtain ⟨h1, h2⟩ := read_terminal h' n
        obtain ⟨ih1, ih2⟩ := ih (st'.read n).2 h2
        refine ⟨?_, ih2⟩
        intro out hmem
        simp only [runReads, List.mem_cons] at hmem
        rcases hmem with rfl | hmem
        · exact h1
        · exact ih1 out hmem
  exact fun ns => main ns st h

theorem runReads_drain : ∀ (ns : List (Option Int)), none ∈ ns →
    ∀ st : StringIterState, sioContent (runReads st ns).2 = [] := by
  intro ns
  induction ns with
  | nil => intro h; cases h
  | cons n ns ih =>
      intro hmem st
      rcases List.mem_cons.mp hmem with hn | hmem'
      · subst hn
        have h2 : sioContent (st.read none).2 = [] := by
          show sioContent (readUnsized st).2 = []
          rw [readUnsized_spec]
          rfl
        simpa [runReads] using ((runReads_terminal h2) ns).2
      · simpa [runReads] using ih hmem' (st.read n).2

theorem drainFuel_spec : ∀ (f : Nat) (st : StringIterState) (size : Nat),
    (sioContent st).length < f → 1 ≤ size →
    drainFuel f st size = sioContent st := by
  intro f
  induction f with
  | zero => intro st size h _; omega
  | succ f ih =>
      intro st size h hsz
      have hr := read_sized st size
      obtain ⟨h1, h2⟩ := readSized_spec st size
      rw [← hr] at h1 h2
      by_cases hp : (st.read (some (size : Int))).1 = []
      · rw [hp] at h1
        have hc : sioContent st = [] := by
          rcases List.take_eq_nil_iff.mp h1.symm with h0 | hnil
          · omega
          · exact hnil
        simp only [drainFuel]
        rw [if_pos hp, hc]
      · have hlen : 1 ≤ (sioContent st).length := by
          rcases Nat.eq_zero_or_pos (sioContent st).length with h0 | h0
          · exfalso
            apply hp
            rw [h1, List.eq_nil_of_length_eq_zero h0]
            simp
          · exact h0
        have hrec := ih (st.read (some (size : Int))).2 size
          (by rw [h2, List.length_drop]; omega) hsz
        simp only [drainFuel]
        rw [if_neg hp, hrec, h1, h2, List.take_append_drop]

/-- The store client's drain of the adapter returns exactly the
concatenation of the generator's lines, for any positive chunk size. -/
theorem drain_spec (lines : List (List Char)) (size : Nat) (hsz : 1 ≤ size) :
    drain lines size = lines.flatten := by
  unfold drain
  rw [drainFuel_spec _ _ _ (by omega) hsz]
  simp [sioContent]

/-! ## The stream adapter: buffer bound (C8) -/

theorem read1_bound {L : Nat} {st : StringIterState} {o : Option Nat}
    (hL1 : 1 ≤ L) (hiter : ∀ s ∈ st.iter, s.length ≤ L)
    (hbuff : st.buff.length < L)
    (ho : o = none ∨ ∃ k, o = some k ∧ 1 ≤ k) :
    (∀ s ∈ (read1 st o).2.iter, s.length ≤ L) ∧
    (read1 st o).2.buff.length < L := by
  unfold read1
  by_cases hb : st.buff = []
  · simp only [if_pos hb]
    refine ⟨fun s hs => hiter s (pullLoop_mem hs), ?_⟩
    have hfstb : (pullLoop st.iter).1.length ≤ L := pullLoop_fst_bound hiter
    rcases ho with rfl | ⟨k, rfl, hk⟩
    · simp only [List.drop_length, List.length_nil]
      omega
    · by_cases hfst : (pullLoop st.iter).1 = []
      · simp only [hfst, List.drop_nil, List.length_nil]
        omega
      · have hpos : 0 < (pullLoop st.iter).1.length := List.length_pos.mpr hfst
        simp only [List.length_drop, List.length_take]
        omega
  · simp only [if_neg hb]
    refine ⟨hiter, ?_⟩
    rcases ho with rfl | ⟨k, rfl, hk⟩
    · simp only [List.drop_length, List.length_nil]
      omega
    · simp only [List.length_drop, List.length_take]
      omega

theorem readSizedFuel_bound {L : Nat} (hL1 : 1 ≤ L) :
    ∀ (f n : Nat) (st : StringIterState),
      (∀ s ∈ st.iter, s.length ≤ L) → st.buff.length < L →
      (∀ s ∈ (readSizedFuel f st n).2.iter, s.length ≤ L) ∧
      (readSizedFuel f st n).2.buff.length < L := by
  intro f
  induction f with
  | zero => intro n st h1 h2; exact ⟨h1, h2⟩
  | succ f ih =>
      intro n st h1 h2
      by_cases hn0 : n = 0
      · subst hn0
        simpa [readSizedFuel] using And.intro h1 h2
      · have hb := read1_bound hL1 h1 h2
          (Or.inr ⟨n, rfl, Nat.pos_of_ne_zero hn0⟩)
        by_cases hp : (read1 st (some n)).1 = []
        · simp only [readSizedFuel]
          rw [if_neg hn0, if_pos hp]
          exact hb
        · simp only [readSizedFuel]
          rw [if_neg hn0, if_neg hp]
          exact ih _ _ hb.1 hb.2

theorem readUnsizedFuel_bound {L : Nat} (hL1 : 1 ≤ L) :
    ∀ (f : Nat) (st : StringIterState),
      (∀ s ∈ st.iter, s.length ≤ L) → st.buff.length < L →
      (∀ s ∈ (readUnsizedFuel f st).2.iter, s.length ≤ L) ∧
      (readUnsizedFuel f st).2.buff.length < L := by
  intro f
  induction f with
  | zero => intro st h1 h2; exact ⟨h1, h2⟩
  | succ f ih =>
      intro st h1 h2
      have hb := read1_bound hL1 h1 h2 (Or.inl rfl)
      by_cases hp : (read1 st none).1 = []
      · simp only [readUnsizedFuel]
        rw [if_pos hp]
        exact hb
      · simp only [readUnsizedFuel]
        rw [if_neg hp]
        exact ih _ hb.1 hb.2

theorem read_bound {L : Nat} (hL1 : 1 ≤ L) (st : StringIterState)
    (n : Option Int)
    (h1 : ∀ s ∈ st.iter, s.length ≤ L) (h2 : st.buff.length < L) :
    (∀ s ∈ (st.read n).2.iter, s.length ≤ L) ∧
    (st.read n).2.buff.length < L := by
  cases n with
  | none => exact readUnsizedFuel_bound hL1 _ st h1 h2
  | some k =>
      by_cases hk : k < 0
      · rw [read_neg st hk]
        exact readUnsizedFuel_bound hL1 _ st h1 h2
      · have hk' : k = ((k.toNat : Nat) : Int) := by omega
        rw [hk', read_sized]
        exact readSizedFuel_bound hL1 _ _ st h1 h2

theorem runReads_bound {L : Nat} (hL1 : 1 ≤ L) :
    ∀ (ns : List (Option Int)) (st : StringIterState),
      (∀ s ∈ st.iter, s.length ≤ L) → st.buff.length < L →
      (∀ s ∈ (runReads st ns).2.iter, s.length ≤ L) ∧
      (runReads st ns).2.buff.length < L := by
  intro ns
  induction ns with
  | nil => intro st h1 h2; exact ⟨h1, h2⟩
  | cons n ns ih =>
      intro st h1 h2
      have hb := read_bound hL1 st n h1 h2
      simpa [runReads] using ih (st.read n).2 hb.1 hb.2

/-- C8: if `L` bounds the length of every encoded line the generator
yields (encoded lines are nonempty, so `1 ≤ L`), then after any schedule of
`read` calls starting from a freshly constructed adapter the pending buffer
is strictly shorter than `L`, hence strictly below `L + n` for every
requested read size `n` — the adapter never buffers more than one pulled
line beyond the requested read size. -/
theorem c8_buffer_bound (lines : List (List Char)) (L : Nat)
    (hL : ∀ s ∈ lines, s.length ≤ L) (hL1 : 1 ≤ L) :
    ∀ (ns : List (Option Int)) (n : Nat),
      ((runReads ⟨lines, []⟩ ns).2).buff.length < L + n := by
  intro ns n
  have h := (runReads_bound hL1 ns ⟨lines, []⟩ hL (by simpa using hL1)).2
  omega

/-- Witness for C8 at a concrete line list and schedule. -/
theorem c8_witness :
    ((runReads ⟨["ab\n".data], []⟩ [some 1]).2).buff.length < 3 + 0 := by
  exact c8_buffer_bound ["ab\n".data] 3 (by decide) (by decide) [some 1] 0

/-! ## C7: the read state machine -/

/-- C7, counterexample to the claim as stated: with lines `"ab"`, `"cd"`
pending, the claimed machine's `read(3)` refills once and returns only
`"ab"`, but the implemented `read(3)` keeps pulling and returns `"abc"`. -/
theorem c7_counterexample :
    ((⟨["ab".data, "cd".data], []⟩ : StringIterState).read (some 3)).1 = "abc".data ∧
    (specReadMachine ⟨["ab".data, "cd".data], []⟩ (some 3)).1 = "ab".data ∧
    "abc".data ≠ "ab".data := by
  decide

theorem drop_min_length (k : Nat) (b : List Char) :
    b.drop (k ⊓ b.length) = b.drop k := by
  rcases le_total k b.length with h | h
  · rw [min_eq_left h]
  · rw [min_eq_right h, List.drop_eq_nil_of_le le_rfl, List.drop_eq_nil_of_le h]

theorem read1_machine (st : StringIterState) (k : Nat) :
    read1 st (some k) = specReadMachine st (some (k : Int)) := by
  unfold read1 specReadMachine
  norm_num [Int.natCast_nonneg, drop_min_length]

/-- C7 (amended): the claimed pull-refill-then-slice machine describes one
internal `_read1` step, not a whole sized `read` call: `read1` on a sized
request coincides with the machine, while `read(n)` for `n ≥ 0` iterates
that step until `n` characters are gathered or the stream is exhausted and
so returns exactly the first `min(n, remaining)` characters, keeping the
remainder; an unspecified or negative `n` reads everything, looping pulls
until exhaustion; and once the generator is exhausted and the buffer empty
(no content remains), every subsequent read returns the empty string. -/
theorem c7_read_follows_machine :
    (∀ (st : StringIterState) (k : Nat),
       read1 st (some k) = specReadMachine st (some (k : Int))) ∧
    (∀ (st : StringIterState) (k : Nat),
       (st.read (some (k : Int))).1 = (sioContent st).take k ∧
       sioContent (st.read (some (k : Int))).2 = (sioContent st).drop k) ∧
    (∀ (st : StringIterState) (k : Int), k < 0 →
       st.read (some k) = st.read none) ∧
    (∀ st : StringIterState,
       (st.read none).1 = sioContent st ∧ (st.read none).2 = ⟨[], []⟩) ∧
    (∀ st : StringIterState, sioContent st = [] →
       ∀ ns : List (Option Int), ∀ out ∈ (runReads st ns).1, out = []) := by
  refine ⟨read1_machine, ?_, ?_, ?_, ?_⟩
  · intro st k
    rw [read_sized]
    exact readSized_spec st k
  · intro st k hk
    exact read_neg st hk
  · intro st
    have h : st.read none = (sioContent st, ⟨[], []⟩) := readUnsized_spec st
    exact ⟨congrArg Prod.fst h, congrArg Prod.snd h⟩
  · intro st h ns
    exact ((runReads_terminal h) ns).1

/-- Witness for C7: a negative size behaves as an unspecified one, and on
an exhausted adapter a read returns the empty string. -/
theorem c7_witness :
    (⟨["ab".data], "x".data⟩ : StringIterState).read (some (-1)) =
      (⟨["ab".data], "x".data⟩ : StringIterState).read none ∧
    ∀ out ∈ (runReads ⟨[], []⟩ [some 3]).1, out = [] := by
  exact ⟨c7_read_follows_machine.2.2.1 ⟨["ab".data], "x".data⟩ (-1) (by decide),
    c7_read_follows_machine.2.2.2.2 ⟨[], []⟩ (by decide) [some 3]⟩

/-! ## C10: the adapter loses, duplicates and reorders nothing -/

/-- C10, counterexample to the claim as stated: the schedule consisting of
the single call `read(1)` returns `"a"`, not the full `"ab"` — the
concatenation of the outputs equals the concatenation of the iterator's
strings only for schedules that drain the stream. -/
theorem c10_counterexample :
    (runReads ⟨["ab".data], []⟩ [some 1]).1.flatten ≠ ["ab".data].flatten := by
  decide

/-- C10 (amended): over any schedule of reads the adapter loses, duplicates
and reorders nothing — the concatenation of the returned strings followed
by the content still held equals the concatenation of the iterator's
strings in order; each `read(n)` with `n ≥ 0` returns exactly
`min(n, remaining)` characters; and for any schedule that drains the
stream (one containing an unsized read) the concatenation of the outputs
equals the concatenation of the iterator's strings. -/
theorem c10_stream_conservation :
    (∀ (lines : List (List Char)) (ns : List (Option Int)),
       (runReads ⟨lines, []⟩ ns).1.flatten ++
         sioContent (runReads ⟨lines, []⟩ ns).2 = lines.flatten) ∧
    (∀ (st : StringIterState) (k : Nat),
       (st.read (some (k : Int))).1.length = min k (sioContent st).length) ∧
    (∀ (lines : List (List Char)) (ns : List (Option Int)), none ∈ ns →
       (runReads ⟨lines, []⟩ ns).1.flatten = lines.flatten) := by
  have hinit : ∀ lines : List (List Char),
      sioContent ⟨lines, []⟩ = lines.flatten := by
    intro lines
    simp [sioContent]
  refine ⟨?_, ?_, ?_⟩
  · intro lines ns
    rw [runReads_conserve ns ⟨lines, []⟩, hinit]
  · intro st k
    rw [read_sized]
    rw [(readSized_spec st k).1, List.length_take]
  · intro lines ns hmem
    have h1 := runReads_conserve ns ⟨lines, []⟩
    rw [runReads_drain ns hmem ⟨lines, []⟩, List.append_nil, hinit] at h1
    exact h1

/-- Witness for C10: a draining schedule returns the full stream. -/
theorem c10_witness :
    (runReads ⟨["ab".data, "cd".data], []⟩ [some 3, none]).1.flatten =
      ["ab".data, "cd".data].flatten := by
  exact c10_stream_conservation.2.2 ["ab".data, "cd".data] [some 3, none]
    (by decide)
